import Mathlib

/-
Verification of the interactive layer of the mjnurse/website-builder static
site: the search overlay (corpus fallback search, indexed search result
assembly, snippet extraction) and the keyboard list navigator.  Each
definition is a shallow embedding of the corresponding JavaScript function;
strings are modelled as Lean strings with explicit character-list
manipulation, JavaScript numbers holding small integers as Int or Nat.
-/

namespace WebsiteBuilder

/-- Lowercasing of a character list; models the JavaScript
String.prototype.toLowerCase call on the ASCII range used by the site. -/
def jsToLowerL (l : List Char) : List Char := l.map Char.toLower

/-- Lowercasing of a string, models s.toLowerCase(). -/
def jsToLower (s : String) : String := String.mk (jsToLowerL s.data)

/-- Models the guard `!query.trim()` of performSearch: the trimmed string is
empty exactly when every character is whitespace. -/
def trimIsEmpty (s : String) : Bool := s.data.all Char.isWhitespace

/-- Character-list prefix test, helper for substring search. -/
def isPrefixL : List Char → List Char → Bool
  | [], _ => true
  | _ :: _, [] => false
  | a :: as, b :: bs => a == b && isPrefixL as bs

/-- Substring containment: models h.includes(pat) for JavaScript strings
(the empty pattern is contained in every string). -/
def containsSub : List Char → List Char → Bool
  | pat, [] => pat.isEmpty
  | pat, c :: t => isPrefixL pat (c :: t) || containsSub pat t

/-- First occurrence offset of pat in l; models l.indexOf(pat) with the
JavaScript convention that the empty pattern occurs at offset 0, except that
a missing occurrence is none rather than -1. -/
def indexOfChars (pat : List Char) : List Char → Option Nat
  | [] => if isPrefixL pat [] then some 0 else none
  | c :: t => if isPrefixL pat (c :: t) then some 0 else (indexOfChars pat t).map (· + 1)

/-- Models s.includes(pat). -/
def strIncludes (s pat : String) : Bool := containsSub pat.data s.data

/-- A searchable document of the corpus, as loaded from
/static/search-index.json. -/
structure Doc where
  id : String
  title : String
  content : String
  url : String
  deriving DecidableEq

/-- The mutable interaction state of the search overlay controller in
initSearch: searchActive, searchQuery, searchResults, selectedResultIndex. -/
structure OverlayState where
  searchActive : Bool
  searchQuery : String
  searchResults : List Doc
  selectedResultIndex : Int
  deriving DecidableEq

/-- Initial values of the overlay state variables. -/
def initOverlay : OverlayState :=
  { searchActive := false, searchQuery := "", searchResults := [], selectedResultIndex := -1 }

/-- Environment of a search session: the loaded corpus and, when the Lunr
index is available, the indexed query function.  The inner Option models a
query that throws (caught by performSearch); its value is the list of
result reference ids in index ranking order. -/
structure SearchEnv where
  documents : List Doc
  lunr : Option (String → Option (List String))

/-- The fallback match predicate of fallbackSearch:
doc.title.toLowerCase().includes(lowerQuery) ||
doc.content.toLowerCase().includes(lowerQuery). -/
def matchesFallback (lowerQuery : String) (d : Doc) : Bool :=
  strIncludes (jsToLower d.title) lowerQuery || strIncludes (jsToLower d.content) lowerQuery

/-- fallbackSearch(query): case-insensitive substring filter over the corpus,
truncated with slice(0, 10); resets selectedResultIndex to -1. -/
def fallbackSearch (docs : List Doc) (query : String) (st : OverlayState) : OverlayState :=
  let lowerQuery := jsToLower query
  { st with
    searchResults := (docs.filter (fun d => matchesFallback lowerQuery d)).take 10
    selectedResultIndex := -1 }

/-- Assembly of indexed results in performSearch: map each Lunr reference to
the corpus document with that id, drop the unmatched ones
(.filter(doc => doc)), and slice(0, 10). -/
def indexedResults (docs : List Doc) (refs : List String) : List Doc :=
  (refs.filterMap (fun r => docs.find? (fun d => d.id == r))).take 10

/-- performSearch(query).  The whitespace-only branch clears the results and
returns without touching selectedResultIndex; the indexed branch appends a
trailing wildcard, converts references, and resets the selection; a throwing
indexed query is caught and treated as zero results; without an index the
fallback path runs. -/
def performSearch (env : SearchEnv) (query : String) (st : OverlayState) : OverlayState :=
  if trimIsEmpty query then
    { st with searchResults := [] }
  else
    match env.lunr with
    | none => fallbackSearch env.documents query st
    | some searchFn =>
      match searchFn (query ++ "*") with
      | some refs =>
        { st with searchResults := indexedResults env.documents refs, selectedResultIndex := -1 }
      | none =>
        { st with searchResults := [], selectedResultIndex := -1 }

/-- The overlay controller operations reachable from the event listeners:
openSearch, closeSearch, the input listener (queryChange), and the
ArrowDown / ArrowUp branches of the keydown listener. -/
inductive OverlayOp where
  | openSearch
  | closeSearch
  | queryChange (text : String)
  | arrowDown
  | arrowUp
  deriving DecidableEq

/-- One transition of the overlay controller.  openSearch and closeSearch
reset query, results and selection; queryChange stores the input value and
runs performSearch; the arrow branches run only while searchActive and move
the selection exactly as the keydown handler does. -/
def stepOverlay (env : SearchEnv) (op : OverlayOp) (st : OverlayState) : OverlayState :=
  match op with
  | .openSearch =>
    { searchActive := true, searchQuery := "", searchResults := [], selectedResultIndex := -1 }
  | .closeSearch =>
    { searchActive := false, searchQuery := "", searchResults := [], selectedResultIndex := -1 }
  | .queryChange t => performSearch env t { st with searchQuery := t }
  | .arrowDown =>
    if st.searchActive then
      let nextIndex := min (st.selectedResultIndex + 1) ((st.searchResults.length : Int) - 1)
      if 0 ≤ nextIndex then { st with selectedResultIndex := nextIndex } else st
    else st
  | .arrowUp =>
    if st.searchActive then
      { st with selectedResultIndex := max (st.selectedResultIndex - 1) (-1) }
    else st

/-- Run a sequence of overlay operations from the initial state. -/
def runOverlay (env : SearchEnv) (ops : List OverlayOp) : OverlayState :=
  ops.foldl (fun st op => stepOverlay env op st) initOverlay

/-- The SearchState invariant claimed by the spec:
selectedIndex lies in the interval from -1 to len(results) - 1. -/
abbrev overlayInv (st : OverlayState) : Prop :=
  -1 ≤ st.selectedResultIndex ∧ st.selectedResultIndex ≤ (st.searchResults.length : Int) - 1

/-- Helper for splitWsWords: the first argument is the remaining input, the
second the reversed current word. -/
def splitWsAux : List Char → List Char → List (List Char)
  | [], acc => if acc.isEmpty then [] else [acc.reverse]
  | c :: rest, acc =>
    if c.isWhitespace then
      if acc.isEmpty then splitWsAux rest [] else acc.reverse :: splitWsAux rest []
    else splitWsAux rest (c :: acc)

/-- Splitting into maximal runs of non-whitespace characters; models
lowerQuery.split with the whitespace-run pattern followed by the
filter keeping only terms of positive length, as done in getSnippet. -/
def splitWsWords (l : List Char) : List (List Char) := splitWsAux l []

/-- The lowercased query terms computed by getSnippet. -/
def queryTermsOf (query : String) : List (List Char) :=
  splitWsWords (jsToLowerL query.data)

/-- Encode an optional offset the way JavaScript indexOf does: -1 for a
missing occurrence. -/
def intOfIdx : Option Nat → Int
  | some n => n
  | none => -1

/-- The match-search loop of getSnippet: matchIndex is assigned
lowerContent.indexOf(term) for each term in turn, and the loop breaks at the
first term whose occurrence is found; the final value is kept even when it
is -1. -/
def loopMatchIndex : List (List Char) → List Char → Int
  | [], _ => -1
  | t :: rest, hay =>
    let i := intOfIdx (indexOfChars t hay)
    if i == -1 then loopMatchIndex rest hay else i

/-- The character offset on which getSnippet centers its excerpt window for
the given content and query (-1 when no term occurs). -/
def snippetAnchor (content query : String) : Int :=
  loopMatchIndex (queryTermsOf query) (jsToLowerL content.data)

/-- Stated from the claim wording, for comparison with the source-derived
loopMatchIndex: the minimum over all query terms of that term's first
occurrence offset in the content, none when no term occurs. -/
def claimEarliestOffset (terms : List (List Char)) (hay : List Char) : Option Nat :=
  (terms.filterMap (fun t => indexOfChars t hay)).foldr
    (fun n acc =>
      match acc with
      | none => some n
      | some m => some (min n m))
    none

/-- Stated from the amended wording: the first occurrence offset of the
first query term, in query order, that occurs in the content. -/
def firstTermOffset (terms : List (List Char)) (hay : List Char) : Option Nat :=
  (terms.filterMap (fun t => indexOfChars t hay)).head?

/-- JavaScript content.substring(a, b) for a ≤ b, clamped to the content
bounds. -/
def jsSubstring (l : List Char) (a b : Nat) : List Char := (l.take b).drop a

/-- Simplified syntactic validity of the JavaScript regular expression
pattern that getSnippet compiles with new RegExp in its highlight loop:
the scanner tracks escape sequences, character classes, group balance and
quantifiers with nothing to repeat.  The arguments after the character list
are the open-group depth, whether the scanner is inside a character class,
whether an atom precedes, and whether a quantifier precedes (allowing a
lazy quantifier marker). -/
def regexScan : List Char → Nat → Bool → Bool → Bool → Bool
  | [], depth, inCls, _, _ => depth == 0 && !inCls
  | c :: rest, depth, inCls, prevAtom, prevQuant =>
    if c == '\\' then
      match rest with
      | [] => false
      | _ :: rest2 => regexScan rest2 depth inCls true false
    else if inCls then
      if c == ']' then regexScan rest depth false true false
      else regexScan rest depth true prevAtom prevQuant
    else if c == '[' then regexScan rest depth true false false
    else if c == '(' then regexScan rest (depth + 1) false false false
    else if c == ')' then
      match depth with
      | 0 => false
      | d + 1 => regexScan rest d false true false
    else if c == '*' || c == '+' then
      if prevAtom then regexScan rest depth false false true else false
    else if c == '?' then
      if prevQuant then regexScan rest depth false false false
      else if prevAtom then regexScan rest depth false false true
      else false
    else if c == '|' then regexScan rest depth false false false
    else regexScan rest depth false true false

/-- Whether new RegExp applied to the pattern built from an open
parenthesis, the raw term, and a close parenthesis succeeds; terms with
unbalanced groups such as three open parentheses yield a SyntaxError in
JavaScript and are rejected here. -/
def regexGroupValid (term : List Char) : Bool :=
  regexScan ('(' :: (term ++ [')'])) 0 false false false

/-- Recursion core of highlightScan.  The fuel argument only bounds the
recursion depth so that the definition is structural: every step consumes
at least one character of the excerpt, so a fuel of one more than the
excerpt length is never exhausted. -/
def highlightScanGo (term : List Char) : Nat → List Char → List Char
  | 0, s => s
  | _ + 1, [] => []
  | fuel + 1, c :: rest =>
    if !term.isEmpty && isPrefixL term (jsToLowerL (c :: rest)) then
      "<mark>".data ++ (c :: rest).take term.length ++ "</mark>".data ++
        highlightScanGo term fuel (rest.drop (term.length - 1))
    else c :: highlightScanGo term fuel rest

/-- One global case-insensitive replacement pass over the excerpt: every
non-overlapping occurrence of the (already lowercased) term is wrapped in
the mark tags, keeping the original casing of the matched characters,
as the replace call with the captured group does for a term free of
regular-expression metacharacters. -/
def highlightScan (term : List Char) (s : List Char) : List Char :=
  highlightScanGo term (s.length + 1) s

/-- The highlight loop of getSnippet: each query term of length greater
than 2 is compiled to a regular expression and globally replaced; an
invalid pattern makes new RegExp throw, modelled as an error. -/
def highlightAllE : List (List Char) → List Char → Except Unit (List Char)
  | [], s => .ok s
  | t :: rest, s =>
    if t.length > 2 then
      if regexGroupValid t then highlightAllE rest (highlightScan t s)
      else .error ()
    else highlightAllE rest s

/-- getSnippet(content, query), with the possibility of a thrown
SyntaxError from the highlight loop made explicit in the result type. -/
def getSnippetE (content query : String) : Except Unit String :=
  if content = "" || query = "" then .ok ""
  else
    let contentL := content.data
    let queryTerms := queryTermsOf query
    let matchIndex := loopMatchIndex queryTerms (jsToLowerL contentL)
    if matchIndex == -1 then
      .ok (String.mk (jsSubstring contentL 0 150 ++
        (if 150 < contentL.length then "...".data else [])))
    else
      let mi := matchIndex.toNat
      let start := mi - 75
      let stop := min contentL.length (mi + 75)
      let snippet0 := jsSubstring contentL start stop
      let snippet1 := if 0 < start then "...".data ++ snippet0 else snippet0
      let snippet2 := if stop < contentL.length then snippet1 ++ "...".data else snippet1
      (highlightAllE queryTerms snippet2).map String.mk

/-- State of the page-list navigator: currentIndex, the digit buffer,
which link currently carries the highlighted class, the keyboard-nav mode
flag, and the hrefs navigated to so far (window.location.href assignments,
recorded in order). -/
structure NavState where
  currentIndex : Int
  numberBuffer : List Char
  highlighted : Option Nat
  keyboardNavActive : Bool
  navs : List String
  deriving DecidableEq

/-- Initial navigator state. -/
def initNav : NavState :=
  { currentIndex := -1, numberBuffer := [], highlighted := none,
    keyboardNavActive := false, navs := [] }

/-- The navigator inputs: the keydown branches for arrows, Enter and the
digit keys, the settle-timer callback of handleNumberKey, and a mousemove
over the list. -/
inductive NavOp where
  | arrowDown
  | arrowUp
  | enterKey
  | digit (c : Char)
  | settle
  | mouseMove
  deriving DecidableEq

/-- clearHighlight(): removes the highlighted class from every link. -/
def clearHighlightSt (st : NavState) : NavState := { st with highlighted := none }

/-- highlightLink(index): clears highlights, enters keyboard-nav mode, and
only when the index is within the list bounds records it as current and
highlighted (the scroll is a pure side effect). -/
def highlightLink (links : List String) (index : Int) (st : NavState) : NavState :=
  let st1 := { clearHighlightSt st with keyboardNavActive := true }
  if 0 ≤ index ∧ index < (links.length : Int) then
    { st1 with currentIndex := index, highlighted := some index.toNat }
  else st1

/-- navigateToLink(): assigns window.location.href to the current link
target, guarded by the bounds check on currentIndex. -/
def navigateToLink (links : List String) (st : NavState) : NavState :=
  if 0 ≤ st.currentIndex ∧ st.currentIndex < (links.length : Int) then
    match links.get? st.currentIndex.toNat with
    | some href => { st with navs := st.navs ++ [href] }
    | none => st
  else st

/-- Digit key recognition of the keydown dispatcher: the key string is a
single character between the digit zero and the digit nine. -/
def isDigitCh (c : Char) : Bool := '0' ≤ c && c ≤ '9'

/-- Decimal value of a digit list. -/
def digitsVal (l : List Char) : Nat :=
  l.foldl (fun a c => 10 * a + (c.toNat - 48)) 0

/-- parseInt(s, 10) on the number buffer: the longest leading digit run is
parsed, and an empty run yields NaN, modelled as none. -/
def parseIntDigits (l : List Char) : Option Nat :=
  let ds := l.takeWhile isDigitCh
  if ds.isEmpty then none else some (digitsVal ds)

/-- One transition of the list navigator.  The arrow branches move by one
with the in-bounds guard before highlightLink and clear the number buffer;
Enter navigates only from a non-negative currentIndex; a digit key appends
to the buffer; the settle callback parses the buffer as a 1-based index,
highlights it when in range, and clears the buffer regardless; mousemove
leaves keyboard-nav mode and resets currentIndex. -/
def stepNav (links : List String) (op : NavOp) (st : NavState) : NavState :=
  match op with
  | .arrowDown =>
    let st1 :=
      if st.currentIndex + 1 < (links.length : Int) then
        highlightLink links (st.currentIndex + 1) st
      else st
    { st1 with numberBuffer := [] }
  | .arrowUp =>
    let st1 :=
      if 0 ≤ st.currentIndex - 1 then
        highlightLink links (st.currentIndex - 1) st
      else st
    { st1 with numberBuffer := [] }
  | .enterKey =>
    if 0 ≤ st.currentIndex then navigateToLink links st else st
  | .digit c =>
    if isDigitCh c then { st with numberBuffer := st.numberBuffer ++ [c] } else st
  | .settle =>
    let st1 :=
      match parseIntDigits st.numberBuffer with
      | some n =>
        if 0 ≤ (n : Int) - 1 ∧ (n : Int) - 1 < (links.length : Int) then
          highlightLink links ((n : Int) - 1) st
        else st
      | none => st
    { st1 with numberBuffer := [] }
  | .mouseMove =>
    if st.keyboardNavActive then
      { clearHighlightSt st with keyboardNavActive := false, currentIndex := -1 }
    else st

/-- Run a sequence of navigator inputs. -/
def runNav (links : List String) (ops : List NavOp) (st : NavState) : NavState :=
  ops.foldl (fun s op => stepNav links op s) st

/-- The CurrentIndex invariant of the navigator. -/
abbrev navInv (links : List String) (st : NavState) : Prop :=
  -1 ≤ st.currentIndex ∧ st.currentIndex ≤ (links.length : Int) - 1

/-- A keyboard event as seen by the document-level keydown listeners:
the key string, the tag name of the event target, and the modifier flags. -/
structure KeyEv where
  key : String
  targetTag : String
  ctrlKey : Bool
  metaKey : Bool
  altKey : Bool
  deriving DecidableEq

/-- Whether the H branch of the search-overlay keydown listener assigns
window.location.href: the key is h, the overlay is not active, the target
is neither an input nor a textarea, and no modifier is held. -/
def searchHomeNavigates (searchActive : Bool) (e : KeyEv) : Bool :=
  (e.key == "h" || e.key == "H") &&
    (!searchActive && e.targetTag != "INPUT" && e.targetTag != "TEXTAREA" &&
      !e.ctrlKey && !e.metaKey && !e.altKey)

/-- Whether the H branch of the top-nav keydown listener in the static
script assigns window.location.href: only typing context and modifiers are
checked; the search overlay state is not consulted. -/
def topNavHomeNavigates (e : KeyEv) : Bool :=
  !(e.targetTag == "INPUT" || e.targetTag == "TEXTAREA") &&
    !(e.ctrlKey || e.metaKey || e.altKey) &&
    (e.key == "h" || e.key == "H")

/-- The Enter branch of the search-overlay keydown listener: navigation
happens only when selectedResultIndex is non-negative and the results
array holds an element there; the navigation target is that document url. -/
def overlayEnterNav (st : OverlayState) : Option String :=
  if 0 ≤ st.selectedResultIndex then
    match st.searchResults.get? st.selectedResultIndex.toNat with
    | some doc => some doc.url
    | none => none
  else none

/-- The corpus document and fallback-unavailable environment used for the
concrete overlay scenarios. -/
def envC1 : SearchEnv := { documents := [⟨"a", "t", "t", "/a"⟩], lunr := none }

/-- An eleven-document corpus in which every document matches the fallback
query letter. -/
def docsC5 : List Doc :=
  [⟨"0", "a", "b", "/p"⟩, ⟨"1", "a", "b", "/p"⟩, ⟨"2", "a", "b", "/p"⟩,
   ⟨"3", "a", "b", "/p"⟩, ⟨"4", "a", "b", "/p"⟩, ⟨"5", "a", "b", "/p"⟩,
   ⟨"6", "a", "b", "/p"⟩, ⟨"7", "a", "b", "/p"⟩, ⟨"8", "a", "b", "/p"⟩,
   ⟨"9", "a", "b", "/p"⟩, ⟨"ten", "a", "b", "/p"⟩]

/-- The eleventh document of docsC5. -/
def docTen : Doc := ⟨"ten", "a", "b", "/p"⟩

/-- Two distinct corpus documents for the indexed-order scenario. -/
def docA : Doc := ⟨"a", "A", "", "/a"⟩

/-- Second document of the indexed-order scenario. -/
def docB : Doc := ⟨"b", "B", "", "/b"⟩

/-- Claim C4: for every query and corpus, on the indexed path and on the
fallback substring path alike, the result sequence of search has length at
most 10. -/
theorem C4_results_le_ten :
    (∀ env query st, (performSearch env query st).searchResults.length ≤ 10) ∧
    (∀ docs query st, (fallbackSearch docs query st).searchResults.length ≤ 10) := by
  have hfb : ∀ docs query st, (fallbackSearch docs query st).searchResults.length ≤ 10 := by
    intro docs query st
    simp only [fallbackSearch, List.length_take]
    omega
  refine ⟨?_, hfb⟩
  intro env query st
  unfold performSearch
  split
  · simp
  · split
    · exact hfb env.documents query st
    · split
      · simp only [indexedResults, List.length_take]
        omega
      · simp

/-- Claim C3 (code bug): a query term longer than two characters that
occurs in the content and forms an invalid regular-expression pattern makes
the highlight loop of getSnippet throw, while an ordinary term is
highlighted and returned; so snippet extraction is not total. -/
theorem C3_snippet_regex_throws :
    getSnippetE "foo (((" "(((" = Except.error () ∧
    getSnippetE "hello world" "hello" = Except.ok "<mark>hello</mark> world" :=
  ⟨rfl, rfl⟩

/-- Claim C1 counterexample: open the overlay, type a matching query, move
the selection down, then clear the query: the query change to the empty
string leaves selectedIndex at 0 while the results become empty, violating
both the reset-on-every-query-change wording and the interval invariant
(0 is outside the interval from -1 to -1). -/
theorem C1_counterexample :
    (runOverlay envC1 [OverlayOp.openSearch, OverlayOp.queryChange "t",
        OverlayOp.arrowDown, OverlayOp.queryChange ""]).selectedResultIndex = 0 ∧
    (runOverlay envC1 [OverlayOp.openSearch, OverlayOp.queryChange "t",
        OverlayOp.arrowDown, OverlayOp.queryChange ""]).searchResults = [] :=
  ⟨rfl, rfl⟩

/-- Claim C2 counterexample: for content with the second query term at
offset 0 and the first query term at offset 2, the minimum first-occurrence
offset over all terms is 0, but getSnippet centers its window at offset 2,
the first occurrence of the first term in query order that matches. -/
theorem C2_counterexample :
    claimEarliestOffset (queryTermsOf "a b") (jsToLowerL ("b a".data)) = some 0 ∧
    snippetAnchor "b a" "a b" = 2 :=
  ⟨rfl, rfl⟩

/-- Claim C5 counterexample: with eleven matching documents, the eleventh
document matches the query case-insensitively yet is absent from the
fallback results, so membership is not equivalent to matching. -/
theorem C5_counterexample :
    docTen ∈ docsC5 ∧ matchesFallback (jsToLower "a") docTen = true ∧
    docTen ∉ (fallbackSearch docsC5 "a" initOverlay).searchResults := by
  decide

/-- Claim C8 counterexample: with the overlay active and focus on a plain
element, the top-nav keydown listener still navigates home on the H key, so
home navigation is not restricted to the overlay-closed state across all
installed handlers. -/
theorem C8_counterexample :
    topNavHomeNavigates ⟨"h", "DIV", false, false, false⟩ = true ∧
    ¬ ∀ (e : KeyEv) (active : Bool),
        (searchHomeNavigates active e || topNavHomeNavigates e) = true → active = false := by
  refine ⟨by decide, ?_⟩
  intro h
  exact absurd (h ⟨"h", "DIV", false, false, false⟩ true (by decide)) (by decide)

/-- Claim C10 counterexample: when the index returns references in
relevance order that differs from corpus order, the assembled results are
not a subsequence of the corpus, though every element still comes from it. -/
theorem C10_counterexample :
    indexedResults [docA, docB] ["b", "a"] = [docB, docA] ∧
    ¬ List.Sublist [docB, docA] [docA, docB] := by
  refine ⟨by decide, ?_⟩
  intro h
  have h2 := List.Sublist.eq_of_length h (by decide)
  simp [docA, docB] at h2

/-- Every performSearch call whose query does not trim to the empty string
resets the selection to -1, on the fallback path, the indexed path, and
the caught-exception path alike. -/
theorem performSearch_resets_selection (env : SearchEnv) (query : String) (st : OverlayState)
    (h : trimIsEmpty query = false) :
    (performSearch env query st).selectedResultIndex = -1 := by
  cases hL : env.lunr with
  | none => simp [performSearch, h, hL, fallbackSearch]
  | some searchFn =>
    cases hq : searchFn (query ++ "*") with
    | some refs => simp [performSearch, h, hL, hq]
    | none => simp [performSearch, h, hL, hq]

/-- Step preservation of the selection interval invariant, for operations
whose query (when any) does not trim to the empty string. -/
theorem stepOverlay_inv (env : SearchEnv) (op : OverlayOp) (st : OverlayState)
    (hst : overlayInv st)
    (hop : ∀ t, op = OverlayOp.queryChange t → trimIsEmpty t = false) :
    overlayInv (stepOverlay env op st) := by
  cases op with
  | openSearch => refine ⟨?_, ?_⟩ <;> (simp only [stepOverlay, List.length_nil]; omega)
  | closeSearch => refine ⟨?_, ?_⟩ <;> (simp only [stepOverlay, List.length_nil]; omega)
  | queryChange t =>
    have hsel : (stepOverlay env (OverlayOp.queryChange t) st).selectedResultIndex = -1 :=
      performSearch_resets_selection env t { st with searchQuery := t } (hop t rfl)
    refine ⟨by rw [hsel], ?_⟩
    rw [hsel]
    omega
  | arrowDown =>
    obtain ⟨h1, h2⟩ := hst
    simp only [stepOverlay]
    split
    · split
      next h0 => refine ⟨?_, ?_⟩ <;> (dsimp only; omega)
      next => exact ⟨h1, h2⟩
    · exact ⟨h1, h2⟩
  | arrowUp =>
    obtain ⟨h1, h2⟩ := hst
    simp only [stepOverlay]
    split
    · refine ⟨?_, ?_⟩ <;> (dsimp only; omega)
    · exact ⟨h1, h2⟩

/-- The invariant holds after any operation sequence from the initial
state in which no query change trims to empty. -/
theorem runOverlay_inv (env : SearchEnv) (ops : List OverlayOp)
    (h : ∀ t, OverlayOp.queryChange t ∈ ops → trimIsEmpty t = false) :
    overlayInv (runOverlay env ops) := by
  have gen : ∀ (l : List OverlayOp) (st : OverlayState), overlayInv st →
      (∀ t, OverlayOp.queryChange t ∈ l → trimIsEmpty t = false) →
      overlayInv (l.foldl (fun s op => stepOverlay env op s) st) := by
    intro l
    induction l with
    | nil => exact fun st hst _ => hst
    | cons op rest ih =>
      intro st hst hops
      simp only [List.foldl_cons]
      refine ih _ (stepOverlay_inv env op st hst ?_) ?_
      · intro t hteq
        refine hops t ?_
        rw [hteq]
        exact List.mem_cons_self _ _
      · intro t ht
        exact hops t (List.mem_cons_of_mem _ ht)
  exact gen ops initOverlay (by decide) h

/-- Claim C1 (amended): every onQueryChange whose text does not trim to the
empty string resets selectedIndex to -1, and over every operation sequence
in which no query change is empty or whitespace-only the resulting
SearchState satisfies selectedIndex between -1 and len(results) - 1; a
whitespace-only query change, however, clears the results while leaving a
live selection in place (see the counterexample). -/
theorem C1_selection_reset_and_invariant :
    (∀ env t st, trimIsEmpty t = false →
      (stepOverlay env (OverlayOp.queryChange t) st).selectedResultIndex = -1) ∧
    (∀ env ops, (∀ t, OverlayOp.queryChange t ∈ ops → trimIsEmpty t = false) →
      overlayInv (runOverlay env ops)) :=
  ⟨fun env t _st h => performSearch_resets_selection env t _ h,
   fun env ops h => runOverlay_inv env ops h⟩

/-- Witness for C1: the amended theorem applied to the concrete
environment, a concrete non-whitespace query change, and a concrete
operation sequence. -/
theorem C1_witness :
    (stepOverlay envC1 (OverlayOp.queryChange "t") initOverlay).selectedResultIndex = -1 ∧
    overlayInv (runOverlay envC1 [OverlayOp.openSearch, OverlayOp.arrowDown]) :=
  ⟨C1_selection_reset_and_invariant.1 envC1 "t" initOverlay (by decide),
   C1_selection_reset_and_invariant.2 envC1 [OverlayOp.openSearch, OverlayOp.arrowDown]
     (by intro t ht; simp at ht)⟩

/-- The match-search loop computes the first occurrence offset of the
first term, in query order, whose occurrence exists. -/
theorem loopMatchIndex_eq_firstTermOffset (terms : List (List Char)) (hay : List Char) :
    loopMatchIndex terms hay = intOfIdx (firstTermOffset terms hay) := by
  induction terms with
  | nil => rfl
  | cons t rest ih =>
    unfold loopMatchIndex firstTermOffset
    cases h : indexOfChars t hay with
    | none =>
      simpa [intOfIdx, h, List.filterMap_cons, firstTermOffset] using ih
    | some n =>
      have hne : ((n : Int) == -1) = false := by
        simp only [beq_eq_false_iff_ne, ne_eq]
        omega
      simp [intOfIdx, h, List.filterMap_cons, hne]

/-- Claim C2 (amended): the offset on which the snippet window is centered
is the first occurrence offset of the earliest query term in query order
that occurs in the content, and any such offset is the first occurrence of
one of the query terms. -/
theorem C2_anchor_characterization :
    ∀ content query : String,
      snippetAnchor content query =
        intOfIdx (firstTermOffset (queryTermsOf query) (jsToLowerL content.data)) ∧
      (∀ n, firstTermOffset (queryTermsOf query) (jsToLowerL content.data) = some n →
        ∃ t, t ∈ queryTermsOf query ∧ indexOfChars t (jsToLowerL content.data) = some n) := by
  intro content query
  refine ⟨loopMatchIndex_eq_firstTermOffset _ _, ?_⟩
  intro n hn
  unfold firstTermOffset at hn
  cases hfm : (queryTermsOf query).filterMap
      (fun t => indexOfChars t (jsToLowerL content.data)) with
  | nil => rw [hfm] at hn; cases hn
  | cons a l =>
    rw [hfm] at hn
    simp only [List.head?_cons, Option.some.injEq] at hn
    have ha : n ∈ (queryTermsOf query).filterMap
        (fun t => indexOfChars t (jsToLowerL content.data)) := by
      rw [hfm, ← hn]
      exact List.mem_cons_self _ _
    obtain ⟨t, htm, hte⟩ := List.mem_filterMap.mp ha
    exact ⟨t, htm, hte⟩

/-- Witness for C2: the amended characterization applied to the concrete
content and query of the counterexample, discharging the occurrence
hypothesis at offset 2. -/
theorem C2_witness :
    ∃ t, t ∈ queryTermsOf "a b" ∧ indexOfChars t (jsToLowerL ("b a".data)) = some 2 :=
  (C2_anchor_characterization "b a" "a b").2 2 (by decide)

/-- Stated from the spec wording of fallback search, for comparison with
the source-derived fallbackSearch: the first 10 documents, in corpus order,
whose title or content contains the full query text case-insensitively. -/
def specFallbackResults (docs : List Doc) (query : String) : List Doc :=
  (docs.filter (fun d =>
    containsSub (jsToLower query).data (jsToLower d.title).data ||
      containsSub (jsToLower query).data (jsToLower d.content).data)).take 10

/-- Claim C5 (amended): when the index is unavailable the fallback search
returns exactly the first 10 corpus documents, in corpus order, whose
title or content contains the query case-insensitively; the result
sequence is a subsequence of the corpus, and any two case-variants of the
query yield identical result sequences. -/
theorem C5_fallback_characterization :
    (∀ docs query st, (fallbackSearch docs query st).searchResults = specFallbackResults docs query) ∧
    (∀ docs query st, List.Sublist (fallbackSearch docs query st).searchResults docs) ∧
    (∀ docs (q q' : String) st, jsToLower q = jsToLower q' →
      fallbackSearch docs q st = fallbackSearch docs q' st) := by
  refine ⟨fun docs query st => rfl, ?_, ?_⟩
  · intro docs query st
    exact (List.take_sublist _ _).trans (List.filter_sublist _)
  · intro docs q q' st h
    simp only [fallbackSearch, h]

/-- Witness for C5: the characterization applied to the concrete
eleven-document corpus, and the case-variant equation discharged for two
concrete case-variants of the same query. -/
theorem C5_witness :
    (fallbackSearch docsC5 "a" initOverlay).searchResults = specFallbackResults docsC5 "a" ∧
    fallbackSearch docsC5 "CACHE" initOverlay = fallbackSearch docsC5 "cache" initOverlay :=
  ⟨C5_fallback_characterization.1 docsC5 "a" initOverlay,
   C5_fallback_characterization.2.2 docsC5 "CACHE" "cache" initOverlay (by decide)⟩

/-- takeWhile keeps a list all of whose elements satisfy the predicate. -/
theorem takeWhile_eq_self_of_all {p : Char → Bool} :
    ∀ l : List Char, (∀ c ∈ l, p c = true) → l.takeWhile p = l
  | [], _ => rfl
  | c :: cs, h => by
    rw [List.takeWhile_cons, if_pos (h c (List.mem_cons_self c cs)),
      takeWhile_eq_self_of_all cs (fun x hx => h x (List.mem_cons_of_mem c hx))]

/-- A run of digit keys only appends the digits to the number buffer, in
order, and changes nothing else. -/
theorem runNav_digits (links : List String) :
    ∀ (ds : List Char) (st : NavState), (∀ c ∈ ds, isDigitCh c = true) →
      runNav links (ds.map NavOp.digit) st = { st with numberBuffer := st.numberBuffer ++ ds }
  | [], st, _ => by simp [runNav]
  | c :: cs, st, hd => by
    have hc : isDigitCh c = true := hd c (List.mem_cons_self c cs)
    have hcs : ∀ x ∈ cs, isDigitCh x = true := fun x hx => hd x (List.mem_cons_of_mem c hx)
    simp only [List.map_cons, runNav, List.foldl_cons]
    have hstep : stepNav links (NavOp.digit c) st =
        { st with numberBuffer := st.numberBuffer ++ [c] } := by
      simp [stepNav, hc]
    rw [hstep]
    have := runNav_digits links cs { st with numberBuffer := st.numberBuffer ++ [c] } hcs
    simp only [runNav] at this
    rw [this]
    simp

/-- Claim C6: a sequence of digit keys pressed into an empty buffer and
followed by the settle callback is interpreted as the single decimal
number formed by all buffered digits, read as a 1-based index: in range it
is highlighted as current but never navigated to; out of range (including
zero) it leaves the selection untouched; the buffer is cleared either way. -/
theorem C6_digits_settle :
    ∀ (links : List String) (ds : List Char) (st : NavState),
      ds ≠ [] → (∀ c ∈ ds, isDigitCh c = true) → st.numberBuffer = [] →
      (runNav links (ds.map NavOp.digit ++ [NavOp.settle]) st).numberBuffer = [] ∧
      (runNav links (ds.map NavOp.digit ++ [NavOp.settle]) st).navs = st.navs ∧
      (1 ≤ digitsVal ds → digitsVal ds ≤ links.length →
        (runNav links (ds.map NavOp.digit ++ [NavOp.settle]) st).currentIndex =
            (digitsVal ds : Int) - 1 ∧
        (runNav links (ds.map NavOp.digit ++ [NavOp.settle]) st).highlighted =
            some (digitsVal ds - 1)) ∧
      ((digitsVal ds = 0 ∨ links.length < digitsVal ds) →
        (runNav links (ds.map NavOp.digit ++ [NavOp.settle]) st).currentIndex = st.currentIndex ∧
        (runNav links (ds.map NavOp.digit ++ [NavOp.settle]) st).highlighted = st.highlighted) := by
  intro links ds st hne hd hbuf
  have hsplit : runNav links (ds.map NavOp.digit ++ [NavOp.settle]) st =
      stepNav links NavOp.settle (runNav links (ds.map NavOp.digit) st) := by
    simp [runNav, List.foldl_append]
  have hdig := runNav_digits links ds st hd
  rw [hbuf] at hdig
  simp only [List.nil_append] at hdig
  have hparse : parseIntDigits ds = some (digitsVal ds) := by
    unfold parseIntDigits
    rw [takeWhile_eq_self_of_all ds hd]
    simp [hne]
  rw [hsplit, hdig]
  simp only [stepNav, hparse]
  by_cases hrange : 0 ≤ (digitsVal ds : Int) - 1 ∧ (digitsVal ds : Int) - 1 < (links.length : Int)
  · rw [if_pos hrange]
    simp only [highlightLink, clearHighlightSt, if_pos hrange]
    refine ⟨trivial, trivial, ?_, ?_⟩
    · intro _ _
      refine ⟨trivial, ?_⟩
      have hnt : ((digitsVal ds : Int) - 1).toNat = digitsVal ds - 1 := by omega
      rw [hnt]
    · intro hbad
      exfalso
      obtain ⟨hr1, hr2⟩ := hrange
      rcases hbad with h | h <;> omega
  · rw [if_neg hrange]
    refine ⟨trivial, rfl, ?_, fun _ => ⟨rfl, rfl⟩⟩
    intro h1 h2
    exact absurd ⟨by omega, by omega⟩ hrange

/-- Witness for C6: digits one then two pressed into a twelve-link list
settle to the 0-based index 11, with no navigation. -/
theorem C6_witness :
    (runNav (List.replicate 12 "/x") [NavOp.digit '1', NavOp.digit '2', NavOp.settle]
        initNav).currentIndex = 11 ∧
    (runNav (List.replicate 12 "/x") [NavOp.digit '1', NavOp.digit '2', NavOp.settle]
        initNav).navs = [] := by
  have h := C6_digits_settle (List.replicate 12 "/x") ['1', '2'] initNav
    (by decide) (by decide) rfl
  have hval : ((digitsVal ['1', '2'] : Int) - 1) = 11 := by decide
  have h3 := h.2.2.1 (by decide) (by decide)
  exact ⟨hval ▸ h3.1, h.2.1⟩

/-- highlightLink keeps currentIndex inside the bounds: it updates it only
under its own range guard. -/
theorem highlightLink_inv (links : List String) (index : Int) (st : NavState)
    (hst : navInv links st) : navInv links (highlightLink links index st) := by
  unfold highlightLink clearHighlightSt
  split
  next h => refine ⟨?_, ?_⟩ <;> (dsimp only; omega)
  next => exact hst

/-- Step preservation of the CurrentIndex interval invariant. -/
theorem stepNav_inv (links : List String) (op : NavOp) (st : NavState)
    (hst : navInv links st) : navInv links (stepNav links op st) := by
  obtain ⟨h1, h2⟩ := hst
  cases op with
  | arrowDown =>
    simp only [stepNav]
    split
    · exact highlightLink_inv links _ st ⟨h1, h2⟩
    · exact ⟨h1, h2⟩
  | arrowUp =>
    simp only [stepNav]
    split
    · exact highlightLink_inv links _ st ⟨h1, h2⟩
    · exact ⟨h1, h2⟩
  | enterKey =>
    simp only [stepNav]
    split
    · unfold navigateToLink
      split
      · split <;> exact ⟨h1, h2⟩
      · exact ⟨h1, h2⟩
    · exact ⟨h1, h2⟩
  | digit c =>
    simp only [stepNav]
    split <;> exact ⟨h1, h2⟩
  | settle =>
    simp only [stepNav]
    split
    · split
      · exact highlightLink_inv links _ st ⟨h1, h2⟩
      · exact ⟨h1, h2⟩
    · exact ⟨h1, h2⟩
  | mouseMove =>
    simp only [stepNav]
    split
    · refine ⟨?_, ?_⟩ <;> (dsimp only [clearHighlightSt]; omega)
    · exact ⟨h1, h2⟩

/-- Claim C7: across every input sequence from the initial state the
navigator keeps CurrentIndex between -1 and linkCount - 1, ArrowUp at
index 0 leaves the selection unchanged, and ArrowDown at the last index
leaves the selection unchanged (moves are clamped, no wraparound). -/
theorem C7_nav_bounds :
    (∀ links ops, navInv links (runNav links ops initNav)) ∧
    (∀ links (st : NavState), st.currentIndex = 0 →
      (stepNav links NavOp.arrowUp st).currentIndex = 0) ∧
    (∀ links (st : NavState), st.currentIndex = (links.length : Int) - 1 →
      (stepNav links NavOp.arrowDown st).currentIndex = st.currentIndex) := by
  refine ⟨?_, ?_, ?_⟩
  · intro links ops
    have gen : ∀ (l : List NavOp) (st : NavState), navInv links st →
        navInv links (l.foldl (fun s op => stepNav links op s) st) := by
      intro l
      induction l with
      | nil => exact fun st hst => hst
      | cons op rest ih =>
        intro st hst
        simp only [List.foldl_cons]
        exact ih _ (stepNav_inv links op st hst)
    refine gen ops initNav ⟨?_, ?_⟩ <;> (simp only [initNav]; omega)
  · intro links st h
    simp only [stepNav, h]
    rw [if_neg (by omega)]
    exact h
  · intro links st h
    simp only [stepNav, h]
    rw [if_neg (by omega)]
    rw [h]

/-- Witness for C7: the invariant after a concrete run on a one-link list,
and the two clamping equations at the concrete boundary states. -/
theorem C7_witness :
    navInv ["/a"] (runNav ["/a"] [NavOp.arrowDown, NavOp.arrowDown] initNav) ∧
    (stepNav ["/a"] NavOp.arrowUp ⟨0, [], some 0, true, []⟩).currentIndex = 0 ∧
    (stepNav ["/a"] NavOp.arrowDown ⟨0, [], some 0, true, []⟩).currentIndex = 0 :=
  ⟨C7_nav_bounds.1 ["/a"] [NavOp.arrowDown, NavOp.arrowDown],
   C7_nav_bounds.2.1 ["/a"] ⟨0, [], some 0, true, []⟩ rfl,
   C7_nav_bounds.2.2 ["/a"] ⟨0, [], some 0, true, []⟩ (by decide)⟩

/-- Claim C8 (amended): the search-overlay script's own H handler fires
only when the overlay is closed, the focus is not in a text field, and no
modifier is held; the top-nav script's H handler checks only the focus and
modifier conditions, so it can fire while the overlay is open (see the
counterexample). -/
theorem C8_home_shortcut_guards :
    (∀ (active : Bool) (e : KeyEv), searchHomeNavigates active e = true →
      active = false ∧ e.targetTag ≠ "INPUT" ∧ e.targetTag ≠ "TEXTAREA" ∧
        e.ctrlKey = false ∧ e.metaKey = false ∧ e.altKey = false) ∧
    (∀ e : KeyEv, topNavHomeNavigates e = true →
      e.targetTag ≠ "INPUT" ∧ e.targetTag ≠ "TEXTAREA" ∧
        e.ctrlKey = false ∧ e.metaKey = false ∧ e.altKey = false) := by
  constructor
  · intro active e h
    simp only [searchHomeNavigates, Bool.and_eq_true, bne_iff_ne, Bool.not_eq_true'] at h
    exact ⟨h.2.1.1.1.1.1, h.2.1.1.1.1.2, h.2.1.1.1.2, h.2.1.1.2, h.2.1.2, h.2.2⟩
  · intro e h
    simp only [topNavHomeNavigates, Bool.and_eq_true, Bool.not_eq_true', Bool.or_eq_false_iff,
      beq_eq_false_iff_ne] at h
    exact ⟨h.1.1.1, h.1.1.2, h.1.2.1.1, h.1.2.1.2, h.1.2.2⟩

/-- Witness for C8: the amended guard characterization discharged at a
concrete event for each handler. -/
theorem C8_witness :
    ((false : Bool) = false ∧
      (KeyEv.mk "h" "DIV" false false false).targetTag ≠ "INPUT" ∧
      (KeyEv.mk "h" "DIV" false false false).targetTag ≠ "TEXTAREA" ∧
      (false : Bool) = false ∧ (false : Bool) = false ∧ (false : Bool) = false) ∧
    ((KeyEv.mk "h" "DIV" false false false).targetTag ≠ "INPUT" ∧
      (KeyEv.mk "h" "DIV" false false false).targetTag ≠ "TEXTAREA" ∧
      (false : Bool) = false ∧ (false : Bool) = false ∧ (false : Bool) = false) :=
  ⟨C8_home_shortcut_guards.1 false ⟨"h", "DIV", false, false, false⟩ (by decide),
   C8_home_shortcut_guards.2 ⟨"h", "DIV", false, false, false⟩ (by decide)⟩

/-- Claim C9: navigation is bounds-guarded and otherwise a no-op.  The
overlay Enter branch produces a navigation exactly when selectedResultIndex
is a valid index of the current results; the list-navigator Enter input
appends a navigation exactly when CurrentIndex is within the list bounds,
and in that case the navigation target is a link of the list; both
functions are total, so no attempt faults. -/
theorem C9_enter_bounds_guarded :
    (∀ st : OverlayState, (overlayEnterNav st).isSome = true ↔
      0 ≤ st.selectedResultIndex ∧ st.selectedResultIndex < (st.searchResults.length : Int)) ∧
    (∀ (links : List String) (st : NavState),
      (stepNav links NavOp.enterKey st).navs ≠ st.navs ↔
        0 ≤ st.currentIndex ∧ st.currentIndex < (links.length : Int)) ∧
    (∀ (links : List String) (st : NavState),
      0 ≤ st.currentIndex → st.currentIndex < (links.length : Int) →
      ∃ href, href ∈ links ∧ (stepNav links NavOp.enterKey st).navs = st.navs ++ [href]) := by
  have hnav : ∀ (links : List String) (st : NavState),
      0 ≤ st.currentIndex → st.currentIndex < (links.length : Int) →
      ∃ href, href ∈ links ∧ (stepNav links NavOp.enterKey st).navs = st.navs ++ [href] := by
    intro links st h1 h2
    have hlt : st.currentIndex.toNat < links.length := by omega
    obtain ⟨href, hg⟩ : ∃ href, links.get? st.currentIndex.toNat = some href :=
      ⟨links.get ⟨st.currentIndex.toNat, hlt⟩, List.get?_eq_get hlt⟩
    refine ⟨href, List.get?_mem hg, ?_⟩
    simp only [stepNav, if_pos h1, navigateToLink, if_pos (And.intro h1 h2), hg]
  refine ⟨?_, ?_, hnav⟩
  · intro st
    unfold overlayEnterNav
    split
    next hpos =>
      cases hg : st.searchResults.get? st.selectedResultIndex.toNat with
      | some doc =>
        have := (List.get?_eq_some.mp hg).1
        simp only [hg, Option.isSome_some, true_iff]
        exact ⟨hpos, by omega⟩
      | none =>
        have := List.get?_eq_none.mp hg
        simp only [hg, Option.isSome_none, Bool.false_eq_true, false_iff, not_and, not_lt]
        intro _
        omega
    next hneg =>
      simp only [Option.isSome_none, Bool.false_eq_true, false_iff, not_and, not_lt]
      intro h
      exact absurd h hneg
  · intro links st
    constructor
    · intro hne
      by_contra hcon
      apply hne
      simp only [stepNav]
      split
      next hpos =>
        unfold navigateToLink
        split
        next hin => exact absurd hin (fun hin => hcon ⟨hin.1, hin.2⟩)
        next => rfl
      next => rfl
    · intro ⟨h1, h2⟩
      obtain ⟨href, -, heq⟩ := hnav links st h1 h2
      rw [heq]
      intro hcon
      have := congrArg List.length hcon
      simp at this

/-- Witness for C9: the overlay characterization at a concrete state with
one result selected, and the navigator navigation at a concrete in-bounds
state. -/
theorem C9_witness :
    (0 ≤ (OverlayState.mk true "q" [Doc.mk "a" "T" "c" "/u"] 0).selectedResultIndex ∧
      (OverlayState.mk true "q" [Doc.mk "a" "T" "c" "/u"] 0).selectedResultIndex <
        ((OverlayState.mk true "q" [Doc.mk "a" "T" "c" "/u"] 0).searchResults.length : Int)) ∧
    (∃ href, href ∈ ["/l"] ∧
      (stepNav ["/l"] NavOp.enterKey ⟨0, [], some 0, true, []⟩).navs =
        (⟨0, [], some 0, true, []⟩ : NavState).navs ++ [href]) :=
  ⟨(C9_enter_bounds_guarded.1 (OverlayState.mk true "q" [Doc.mk "a" "T" "c" "/u"] 0)).mp
      (by decide),
   C9_enter_bounds_guarded.2.2 ["/l"] ⟨0, [], some 0, true, []⟩ (by decide) (by decide)⟩

/-- Claim C10 (amended): on the indexed path every returned result is a
document of the loaded corpus, and an index hit whose reference id matches
no corpus document is silently dropped: filtering the reference list down
to the matching references does not change the output.  The output follows
the index ranking order, so it need not be a subsequence of the corpus
(see the counterexample). -/
theorem C10_indexed_results_from_corpus :
    (∀ docs refs, ∀ d ∈ indexedResults docs refs, d ∈ docs) ∧
    (∀ docs refs, indexedResults docs refs =
      indexedResults docs (refs.filter (fun r => docs.any (fun d => d.id == r)))) := by
  constructor
  · intro docs refs d hd
    have hd2 := List.mem_of_mem_take hd
    obtain ⟨r, -, hfind⟩ := List.mem_filterMap.mp hd2
    exact List.mem_of_find?_eq_some hfind
  · intro docs refs
    unfold indexedResults
    congr 1
    induction refs with
    | nil => rfl
    | cons r rest ih =>
      by_cases hp : docs.any (fun d => d.id == r) = true
      · simp only [List.filter_cons, hp, if_true, List.filterMap_cons]
        cases hf : docs.find? (fun d => d.id == r) with
        | none => simpa [hf] using ih
        | some doc => simpa [hf] using ih
      · have hf : docs.find? (fun d => d.id == r) = none := by
          rw [List.find?_eq_none]
          intro x hx hbeq
          exact hp (List.any_eq_true.mpr ⟨x, hx, hbeq⟩)
        simp only [List.filter_cons, hp, if_false, List.filterMap_cons, hf]
        exact ih

/-- Witness for C10: the membership part applied at a concrete corpus,
reference list and returned document. -/
theorem C10_witness : docA ∈ [docA] :=
  C10_indexed_results_from_corpus.1 [docA] ["a"] docA (by decide)

end WebsiteBuilder
